import Mathlib

/-!
# Verification of the dynamic-linker simulation

Shallow embedding of `src/dynamic-linker-sim.cpp`: a page-granular virtual
memory manager (`VirtualMemory`) and a dynamic linker (`DynamicLinker`)
that loads libraries and resolves/applies relocations for executables.

Modelling conventions:
* machine integers (`uint64_t`, `size_t`) are `Nat`, with an explicit
  `% U64` wherever the C++ arithmetic can wrap on reachable inputs;
* the byte store and the page table are total functions `Nat → Nat` /
  `Nat → Bool`; the C++ `std::array` accesses carry no bounds check, so an
  access whose index is out of range is undefined behaviour, modelled by
  the distinct outcome `Err.undefinedBehavior`;
* C++ exceptions leave the (global) `VirtualMemory` object mutated, so
  every mutating operation returns the post-state together with an
  `Except Err` result;
* `std::unordered_map` is modelled as an association list; `operator[]`
  assignment is `mapInsert` (replace in place, append new keys at the
  end), `find` is `mapLookup`.  The C++ iteration order of
  `unordered_map` is unspecified; the list order stands in for one
  concrete enumeration order.
-/

/-- 256 bytes per page (`PAGE_SIZE` in the source). -/
def PAGE_SIZE : Nat := 256

/-- 256 pages (`NUM_PAGES` in the source), giving a 64KB address space. -/
def NUM_PAGES : Nat := 256

/-- `MEMORY_SIZE = PAGE_SIZE * NUM_PAGES`. -/
def MEMORY_SIZE : Nat := PAGE_SIZE * NUM_PAGES

/-- Modulus of 64-bit machine arithmetic. -/
def U64 : Nat := 2 ^ 64

/-- The error outcomes of the simulator.  The first four correspond to the
`std::runtime_error`s thrown by the source; `undefinedBehavior` marks an
out-of-bounds `std::array` access, which in C++ is undefined. -/
inductive Err where
  | outOfMemory
  | segFaultWrite
  | segFaultRead
  | unresolvedSymbol (name : String)
  | undefinedBehavior
deriving DecidableEq

/-- The state of class `VirtualMemory`: byte store `memory`, per-page
allocation flags `page_table`, and the forward-only cursor
`next_free_page`.  Only indices `< MEMORY_SIZE` (resp. `< NUM_PAGES`) are
meaningful; the operations bounds-check explicitly. -/
structure VirtualMemory where
  memory : Nat → Nat
  page_table : Nat → Bool
  next_free_page : Nat

/-- The freshly constructed `VirtualMemory` (`memory{}, page_table{}`). -/
def vmInit : VirtualMemory :=
  { memory := fun _ => 0, page_table := fun _ => false, next_free_page := 0 }

/-- The allocation loop of `VirtualMemory::allocate`: flags `k` consecutive
pages starting at cursor `nfp`, throwing out-of-memory when the cursor
reaches `NUM_PAGES` with iterations remaining. -/
def allocLoop : (Nat → Bool) → Nat → Nat → ((Nat → Bool) × Nat) × Except Err Unit
  | pt, nfp, 0 => ((pt, nfp), Except.ok ())
  | pt, nfp, k + 1 =>
    if NUM_PAGES ≤ nfp then ((pt, nfp), Except.error Err.outOfMemory)
    else allocLoop (fun j => if j = nfp then true else pt j) (nfp + 1) k

/-- Number of pages requested by `allocate(size)`:
`(size + PAGE_SIZE - 1) / PAGE_SIZE` in `size_t` arithmetic (the sum can
wrap for `size` near `2^64`, hence the `% U64`). -/
def pagesNeeded (size : Nat) : Nat :=
  ((size + PAGE_SIZE - 1) % U64) / PAGE_SIZE

/-- `VirtualMemory::allocate`.  Returns the post-state (the C++ object is
mutated in place even when the call throws) and either the start address
`start_page * PAGE_SIZE` or `OutOfMemory`. -/
def VirtualMemory.allocate (vm : VirtualMemory) (size : Nat) :
    VirtualMemory × Except Err Nat :=
  let start_page := vm.next_free_page
  match allocLoop vm.page_table vm.next_free_page (pagesNeeded size) with
  | ((pt, nfp), Except.ok _) =>
    ({ vm with page_table := pt, next_free_page := nfp },
      Except.ok (start_page * PAGE_SIZE))
  | ((pt, nfp), Except.error e) =>
    ({ vm with page_table := pt, next_free_page := nfp }, Except.error e)

/-- `VirtualMemory::write`.  The loop index `i` of the source is absorbed
into the address argument: iteration `i` touches `(address + i) % U64`,
which is exactly `(address + 1 + (i-1)) % U64` of the recursive call.
Each byte's page is checked before the byte is stored, so a faulting call
leaves the bytes before the fault stored (no rollback).  A page index
`≥ NUM_PAGES` is an out-of-bounds `page_table` access in the C++. -/
def VirtualMemory.write (vm : VirtualMemory) (address : Nat) :
    List Nat → VirtualMemory × Except Err Unit
  | [] => (vm, Except.ok ())
  | b :: rest =>
    if (address % U64) / PAGE_SIZE < NUM_PAGES then
      if vm.page_table ((address % U64) / PAGE_SIZE) then
        VirtualMemory.write
          { vm with
            memory := fun j => if j = address % U64 then b else vm.memory j }
          (address + 1) rest
      else (vm, Except.error Err.segFaultWrite)
    else (vm, Except.error Err.undefinedBehavior)

/-- `VirtualMemory::read` (a `const` member: no state change).  Same
per-byte page check as `write`, failing with the read-flavoured fault. -/
def VirtualMemory.read (vm : VirtualMemory) (address : Nat) :
    Nat → Except Err (List Nat)
  | 0 => Except.ok []
  | n + 1 =>
    if (address % U64) / PAGE_SIZE < NUM_PAGES then
      if vm.page_table ((address % U64) / PAGE_SIZE) then
        match vm.read (address + 1) n with
        | Except.ok bs => Except.ok (vm.memory (address % U64) :: bs)
        | Except.error e => Except.error e
      else Except.error Err.segFaultRead
    else Except.error Err.undefinedBehavior

/-- `VirtualMemory::print_memory`, reduced to the bytes it displays: it
performs no allocation check and reads `memory[start + i]` directly. -/
def VirtualMemory.printMemory (vm : VirtualMemory) (start : Nat) : Nat → List Nat
  | 0 => []
  | n + 1 => vm.memory (start % U64) :: vm.printMemory (start + 1) n

/-- One call into the `VirtualMemory` API, for stating invariants over
arbitrary operation sequences. -/
inductive MemOp where
  | alloc (size : Nat)
  | write (address : Nat) (data : List Nat)
  | read (address : Nat) (size : Nat)
  | dump (start : Nat) (size : Nat)

/-- The state after one `MemOp` (`read` and `dump` are `const`). -/
def MemOp.apply (vm : VirtualMemory) : MemOp → VirtualMemory
  | .alloc s => (vm.allocate s).1
  | .write a d => (vm.write a d).1
  | .read _ _ => vm
  | .dump _ _ => vm

/-- The state after a sequence of `MemOp`s. -/
def runOps (vm : VirtualMemory) : List MemOp → VirtualMemory
  | [] => vm
  | op :: ops => runOps (op.apply vm) ops

/-- Association-list model of `std::unordered_map` lookup (`find`). -/
def mapLookup {β : Type} : List (String × β) → String → Option β
  | [], _ => none
  | (k', v') :: rest, k => if k' = k then some v' else mapLookup rest k

/-- Association-list model of `std::unordered_map` `operator[]` assignment:
replace the value of an existing key in place, append a new key. -/
def mapInsert {β : Type} : List (String × β) → String → β → List (String × β)
  | [], k, v => [(k, v)]
  | (k', v') :: rest, k, v =>
    if k' = k then (k', v) :: rest else (k', v') :: mapInsert rest k v

namespace Sim

/-- Class `Symbol`: a named export with its absolute address.  (Wrapped in
the `Sim` namespace because Mathlib already declares a root-level
`Symbol`.) -/
structure Symbol where
  name : String
  address : Nat
deriving DecidableEq

end Sim

/-- Class `Relocation`: a pending request to patch the address of
`symbolName` at `offset` within the owning executable. -/
structure Relocation where
  symbolName : String
  offset : Nat
deriving DecidableEq

/-- Class `Library`: name, base address and exported-symbol map. -/
structure Library where
  name : String
  base_address : Nat
  symbols : List (String × Sim.Symbol)
deriving DecidableEq

/-- The little-endian byte image of a `uint64_t` value, as laid out by the
`vm.write(address, &v, sizeof(v))` calls of the source (x86-64). -/
def toBytes64 (v : Nat) : List Nat :=
  [v % 256, v / 2 ^ 8 % 256, v / 2 ^ 16 % 256, v / 2 ^ 24 % 256,
   v / 2 ^ 32 % 256, v / 2 ^ 40 % 256, v / 2 ^ 48 % 256, v / 2 ^ 56 % 256]

/-- The fixed 8-byte marker written for every symbol (`0xDEADBEEF`). -/
def markerBytes : List Nat := toBytes64 0xDEADBEEF

/-- `Library::Library(name)`: allocates one page from the address space as
the base; propagates `OutOfMemory`. -/
def Library.create (vm : VirtualMemory) (name : String) :
    VirtualMemory × Except Err Library :=
  match vm.allocate PAGE_SIZE with
  | (vm', Except.ok base) =>
    (vm', Except.ok { name := name, base_address := base, symbols := [] })
  | (vm', Except.error e) => (vm', Except.error e)

/-- `Library::addSymbol`: registers `(name, base + offset)` in the symbol
map, then writes the 8-byte marker at that address.  The registration
happens before the write, so a faulting write still leaves the symbol
registered.  The address addition is `uint64_t` (mod `U64`). -/
def Library.addSymbol (lib : Library) (vm : VirtualMemory) (name : String)
    (offset : Nat) : Library × VirtualMemory × Except Err Unit :=
  let address := (lib.base_address + offset) % U64
  let lib' := { lib with symbols := mapInsert lib.symbols name ⟨name, address⟩ }
  let r := vm.write address markerBytes
  (lib', r.1, r.2)

/-- `Library::findSymbol`: exact-name lookup, `none` when absent. -/
def Library.findSymbol (lib : Library) (name : String) : Option Sim.Symbol :=
  mapLookup lib.symbols name

/-- Class `Executable`: name, base address, dependency list, relocation
list and the map filled in by linking. -/
structure Executable where
  name : String
  base_address : Nat
  dependencies : List Library
  relocations : List Relocation
  symbolAddresses : List (String × Nat)
deriving DecidableEq

/-- `Executable::Executable(name)`: allocates one page as base address. -/
def Executable.create (vm : VirtualMemory) (name : String) :
    VirtualMemory × Except Err Executable :=
  match vm.allocate PAGE_SIZE with
  | (vm', Except.ok base) =>
    (vm', Except.ok { name := name, base_address := base, dependencies := [],
                      relocations := [], symbolAddresses := [] })
  | (vm', Except.error e) => (vm', Except.error e)

/-- `Executable::addDependency`. -/
def Executable.addDependency (exe : Executable) (lib : Library) : Executable :=
  { exe with dependencies := exe.dependencies ++ [lib] }

/-- `Executable::addRelocation`. -/
def Executable.addRelocation (exe : Executable) (symbolName : String)
    (offset : Nat) : Executable :=
  { exe with relocations := exe.relocations ++ [⟨symbolName, offset⟩] }

/-- Class `DynamicLinker`: the registry of loaded libraries. -/
structure DynamicLinker where
  loadedLibraries : List (String × Library)
deriving DecidableEq

/-- `DynamicLinker::loadLibrary`: `loadedLibraries[lib->name] = lib`, i.e.
insert-or-assign (an existing entry for the name is overwritten). -/
def DynamicLinker.loadLibrary (l : DynamicLinker) (lib : Library) :
    DynamicLinker :=
  { loadedLibraries := mapInsert l.loadedLibraries lib.name lib }

/-- The dependency-load phase of `linkExecutable`: each dependency is
loaded only when its name is not yet in the registry. -/
def loadDeps (l : DynamicLinker) : List Library → DynamicLinker
  | [] => l
  | d :: rest =>
    loadDeps
      (match mapLookup l.loadedLibraries d.name with
       | none => l.loadLibrary d
       | some _ => l) rest

/-- The resolution scan of `linkExecutable`: the first library in the
registry enumeration whose `findSymbol` succeeds. -/
def resolveSymbol (libs : List (String × Library)) (name : String) :
    Option Sim.Symbol :=
  match libs with
  | [] => none
  | (_, lib) :: rest =>
    match lib.findSymbol name with
    | some s => some s
    | none => resolveSymbol rest name

/-- The resolution/relocation phase of `linkExecutable` over a relocation
list: resolve, record in `symbolAddresses`, then write the 8-byte resolved
address at `base + offset`.  An unresolved name or a faulting write aborts
with the partial `symbolAddresses`/memory state kept (no rollback).  Note
the `symbolAddresses` entry is recorded before the write. -/
def applyRelocs (libs : List (String × Library)) (base : Nat) :
    List Relocation → List (String × Nat) → VirtualMemory →
    List (String × Nat) × VirtualMemory × Except Err Unit
  | [], sa, vm => (sa, vm, Except.ok ())
  | r :: rest, sa, vm =>
    match resolveSymbol libs r.symbolName with
    | none => (sa, vm, Except.error (Err.unresolvedSymbol r.symbolName))
    | some sym =>
      match vm.write ((base + r.offset) % U64) (toBytes64 sym.address) with
      | (vmw, Except.error e) =>
        (mapInsert sa r.symbolName sym.address, vmw, Except.error e)
      | (vmw, Except.ok _) =>
        applyRelocs libs base rest (mapInsert sa r.symbolName sym.address) vmw

/-- `DynamicLinker::linkExecutable`: dependency-load phase, then the
resolution/relocation phase.  Returns the linker, executable and memory
post-states together with the call's outcome. -/
def DynamicLinker.linkExecutable (l : DynamicLinker) (exe : Executable)
    (vm : VirtualMemory) :
    DynamicLinker × Executable × VirtualMemory × Except Err Unit :=
  let l' := loadDeps l exe.dependencies
  let r := applyRelocs l'.loadedLibraries exe.base_address exe.relocations
      exe.symbolAddresses vm
  (l', { exe with symbolAddresses := r.1 }, r.2.1, r.2.2)

/-- A sequence of `allocate` calls, all of which must succeed; returns the
final state and the returned addresses in order. -/
def allocSeq (vm : VirtualMemory) : List Nat → Option (VirtualMemory × List Nat)
  | [] => some (vm, [])
  | s :: rest =>
    match vm.allocate s with
    | (vm1, Except.ok a) =>
      match allocSeq vm1 rest with
      | some (vm2, as) => some (vm2, a :: as)
      | none => none
    | (_, Except.error _) => none

/-! ## Concrete states used by the witnesses and counterexamples -/

/-- Unwrap a successful result, with an explicit fallback. -/
def okOr {α : Type} (d : α) : Except Err α → α
  | Except.ok a => a
  | Except.error _ => d

/-- Fallback library value for `okOr`. -/
def libDefault : Library := { name := "", base_address := 0, symbols := [] }

/-- A memory state with pages 0 and 1 allocated and all bytes zero. -/
def vmTwoPages : VirtualMemory :=
  { memory := fun _ => 0, page_table := fun p => decide (p < 2),
    next_free_page := 2 }

/-- Memory after constructing library "liba" on a fresh address space. -/
def vmA : VirtualMemory := (Library.create vmInit "liba").1

/-- Library "liba", base address 0 (first page). -/
def libA : Library := okOr libDefault (Library.create vmInit "liba").2

/-- Memory after additionally constructing library "libb". -/
def vmAB : VirtualMemory := (Library.create vmA "libb").1

/-- Library "libb", base address `PAGE_SIZE` (second page). -/
def libB : Library := okOr libDefault (Library.create vmA "libb").2

/-- A library named "liba" with base address 0 (registry entry). -/
def libAplain : Library := { name := "liba", base_address := 0, symbols := [] }

/-- A distinct library carrying the same name "liba". -/
def libA2 : Library := { name := "liba", base_address := PAGE_SIZE, symbols := [] }

/-- A library for the symbol-marker witness. -/
def lib6 : Library := { name := "l6", base_address := 0, symbols := [] }

/-- A library exporting symbol "f" at address 16. -/
def libF : Library :=
  { name := "libf", base_address := 0, symbols := [("f", ⟨"f", 16⟩)] }

/-- An executable in page 1 depending on `libF`, with a resolvable
relocation for "f" and an unresolvable one for "g". -/
def exeApp : Executable :=
  { name := "app", base_address := PAGE_SIZE, dependencies := [libF],
    relocations := [⟨"f", 0⟩, ⟨"g", 8⟩], symbolAddresses := [] }

/-- A linker with an empty registry. -/
def linker0 : DynamicLinker := ⟨[]⟩

/-- The run of the first (resolvable) relocation of `exeApp`. -/
def preRun : List (String × Nat) × VirtualMemory × Except Err Unit :=
  applyRelocs (loadDeps linker0 exeApp.dependencies).loadedLibraries
    exeApp.base_address (exeApp.relocations.take 1) exeApp.symbolAddresses
    vmTwoPages

/-! ## Helper lemmas: allocation -/

lemma allocLoop_ok (k : Nat) : ∀ pt nfp pt' nfp',
    allocLoop pt nfp k = ((pt', nfp'), Except.ok ()) →
    nfp' = nfp + k ∧ (∀ p, pt p = true → pt' p = true) ∧
    (∀ p, nfp ≤ p → p < nfp + k → pt' p = true) := by
  induction k with
  | zero =>
    intro pt nfp pt' nfp' h
    simp only [allocLoop, Prod.mk.injEq] at h
    obtain ⟨⟨rfl, rfl⟩, -⟩ := h
    exact ⟨rfl, fun p hp => hp, fun p h1 h2 => absurd h2 (by omega)⟩
  | succ k ih =>
    intro pt nfp pt' nfp' h
    simp only [allocLoop] at h
    by_cases hge : NUM_PAGES ≤ nfp
    · rw [if_pos hge] at h
      simp only [Prod.mk.injEq] at h
      exact absurd h.2 (by simp)
    · rw [if_neg hge] at h
      obtain ⟨h1, h2, h3⟩ := ih _ _ _ _ h
      refine ⟨by omega, ?_, ?_⟩
      · intro p hp
        exact h2 p (by by_cases hpn : p = nfp <;> simp [hpn, hp])
      · intro p hp1 hp2
        by_cases hpn : p = nfp
        · exact h2 p (by simp [hpn])
        · exact h3 p (by omega) (by omega)

lemma allocLoop_mono (k : Nat) : ∀ pt nfp pt' nfp' r,
    allocLoop pt nfp k = ((pt', nfp'), r) →
    nfp ≤ nfp' ∧ (∀ p, pt p = true → pt' p = true) := by
  induction k with
  | zero =>
    intro pt nfp pt' nfp' r h
    simp only [allocLoop, Prod.mk.injEq] at h
    obtain ⟨⟨rfl, rfl⟩, -⟩ := h
    exact ⟨le_refl _, fun p hp => hp⟩
  | succ k ih =>
    intro pt nfp pt' nfp' r h
    simp only [allocLoop] at h
    by_cases hge : NUM_PAGES ≤ nfp
    · rw [if_pos hge] at h
      simp only [Prod.mk.injEq] at h
      obtain ⟨⟨rfl, rfl⟩, -⟩ := h
      exact ⟨le_refl _, fun p hp => hp⟩
    · rw [if_neg hge] at h
      obtain ⟨h1, h2⟩ := ih _ _ _ _ _ h
      refine ⟨by omega, fun p hp => h2 p ?_⟩
      by_cases hpn : p = nfp <;> simp [hpn, hp]

lemma allocLoop_error (k : Nat) : ∀ pt nfp pt' nfp' e,
    allocLoop pt nfp k = ((pt', nfp'), Except.error e) →
    nfp ≤ NUM_PAGES →
    e = Err.outOfMemory ∧ nfp' = NUM_PAGES ∧
    (∀ p, nfp ≤ p → p < NUM_PAGES → pt' p = true) := by
  induction k with
  | zero =>
    intro pt nfp pt' nfp' e h _
    simp only [allocLoop, Prod.mk.injEq] at h
    exact absurd h.2 (by simp)
  | succ k ih =>
    intro pt nfp pt' nfp' e h hle
    simp only [allocLoop] at h
    by_cases hge : NUM_PAGES ≤ nfp
    · rw [if_pos hge] at h
      simp only [Prod.mk.injEq] at h
      obtain ⟨⟨rfl, rfl⟩, he⟩ := h
      have he' : e = Err.outOfMemory := by
        cases he' : e <;> simp [he'] at he ⊢
      exact ⟨he', by omega, fun p h1 h2 => absurd h2 (by omega)⟩
    · rw [if_neg hge] at h
      have hmono := allocLoop_mono k _ _ _ _ _ h
      obtain ⟨he, h1, h2⟩ := ih _ _ _ _ _ h (by omega)
      refine ⟨he, h1, ?_⟩
      intro p hp1 hp2
      by_cases hpn : p = nfp
      · exact hmono.2 p (by simp [hpn])
      · exact h2 p (by omega) hp2

lemma pagesNeeded_eq {s : Nat} (h : s + PAGE_SIZE - 1 < U64) :
    pagesNeeded s = (s + PAGE_SIZE - 1) / PAGE_SIZE := by
  unfold pagesNeeded
  rw [Nat.mod_eq_of_lt h]

lemma pagesNeeded_pos {s : Nat} (h1 : 1 ≤ s) (h2 : s + PAGE_SIZE - 1 < U64) :
    1 ≤ pagesNeeded s := by
  rw [pagesNeeded_eq h2]
  have : PAGE_SIZE ≤ s + PAGE_SIZE - 1 := by
    unfold PAGE_SIZE at *
    omega
  exact Nat.le_div_iff_mul_le (by unfold PAGE_SIZE; omega) |>.mpr (by omega)

lemma allocate_ok {vm vm1 : VirtualMemory} {s a : Nat}
    (h : vm.allocate s = (vm1, Except.ok a)) :
    a = vm.next_free_page * PAGE_SIZE ∧
    vm1.next_free_page = vm.next_free_page + pagesNeeded s ∧
    vm1.memory = vm.memory ∧
    (∀ p, vm.page_table p = true → vm1.page_table p = true) ∧
    (∀ p, vm.next_free_page ≤ p → p < vm.next_free_page + pagesNeeded s →
      vm1.page_table p = true) := by
  unfold VirtualMemory.allocate at h
  rcases hl : allocLoop vm.page_table vm.next_free_page (pagesNeeded s) with ⟨⟨pt', nfp'⟩, r⟩
  rw [hl] at h
  cases r with
  | error e => simp at h
  | ok u =>
    simp only [Prod.mk.injEq] at h
    obtain ⟨rfl, ha⟩ := h
    obtain ⟨h1, h2, h3⟩ := allocLoop_ok _ _ _ _ _ (by rw [hl])
    exact ⟨(Except.ok.inj ha).symm, h1, rfl, h2, h3⟩

lemma allocate_state_mono (vm : VirtualMemory) (s : Nat) :
    vm.next_free_page ≤ (vm.allocate s).1.next_free_page ∧
    (∀ p, vm.page_table p = true → (vm.allocate s).1.page_table p = true) := by
  unfold VirtualMemory.allocate
  rcases hl : allocLoop vm.page_table vm.next_free_page (pagesNeeded s) with ⟨⟨pt', nfp'⟩, r⟩
  have hm := allocLoop_mono _ _ _ _ _ _ hl
  cases r <;> simpa using hm

lemma write_state_frame (d : List Nat) : ∀ (vm : VirtualMemory) (a : Nat),
    ((vm.write a d).1).page_table = vm.page_table ∧
    ((vm.write a d).1).next_free_page = vm.next_free_page := by
  induction d with
  | nil => intro vm a; exact ⟨rfl, rfl⟩
  | cons b rest ih =>
    intro vm a
    unfold VirtualMemory.write
    by_cases h1 : (a % U64) / PAGE_SIZE < NUM_PAGES
    · rw [if_pos h1]
      by_cases h2 : vm.page_table ((a % U64) / PAGE_SIZE)
      · rw [if_pos h2]
        exact ih _ _
      · rw [if_neg h2]
        exact ⟨rfl, rfl⟩
    · rw [if_neg h1]
      exact ⟨rfl, rfl⟩

/-- C7 helper: a single API call can only advance the cursor and can only
turn page flags on. -/
lemma memOp_forward (vm : VirtualMemory) (op : MemOp) :
    vm.next_free_page ≤ (op.apply vm).next_free_page ∧
    (∀ p, vm.page_table p = true → (op.apply vm).page_table p = true) := by
  cases op with
  | alloc s => exact allocate_state_mono vm s
  | write a d =>
    obtain ⟨h1, h2⟩ := write_state_frame d vm a
    exact ⟨by rw [MemOp.apply, h2], fun p hp => by rw [MemOp.apply, h1]; exact hp⟩
  | read a n => exact ⟨le_refl _, fun p hp => hp⟩
  | dump a n => exact ⟨le_refl _, fun p hp => hp⟩

lemma runOps_forward_aux (ops : List MemOp) : ∀ vm : VirtualMemory,
    vm.next_free_page ≤ (runOps vm ops).next_free_page ∧
    (∀ p, vm.page_table p = true → (runOps vm ops).page_table p = true) := by
  induction ops with
  | nil => intro vm; exact ⟨le_refl _, fun p hp => hp⟩
  | cons op rest ih =>
    intro vm
    have h1 := memOp_forward vm op
    have h2 := ih (op.apply vm)
    exact ⟨le_trans h1.1 h2.1, fun p hp => h2.2 p (h1.2 p hp)⟩

/-- C7: every `VirtualMemory` operation (allocate, write, read, dump) —
including failing ones, whose post-states `MemOp.apply` also captures —
preserves the forward-only allocation invariant: the `next_free_page`
cursor never decreases and no page flag ever goes from allocated back to
free, across any sequence of operations. -/
theorem runOps_forward_only (vm : VirtualMemory) (ops : List MemOp) :
    vm.next_free_page ≤ (runOps vm ops).next_free_page ∧
    (∀ p, vm.page_table p = true → (runOps vm ops).page_table p = true) :=
  runOps_forward_aux ops vm

/-- Witness for C7: a concrete run (an allocation, a write into the
allocated page, a failing out-of-bounds write, an over-large failing
allocation, a read and a dump) keeps page 0 allocated and never moves the
cursor back. -/
theorem runOps_forward_only_witness :
    (vmTwoPages.next_free_page ≤
      (runOps vmTwoPages
        [MemOp.write 0 [7], MemOp.write 70000 [1], MemOp.alloc 65792,
         MemOp.read 0 4, MemOp.dump 0 4]).next_free_page) ∧
    (runOps vmTwoPages
        [MemOp.write 0 [7], MemOp.write 70000 [1], MemOp.alloc 65792,
         MemOp.read 0 4, MemOp.dump 0 4]).page_table 0 = true :=
  ⟨(runOps_forward_only vmTwoPages _).1,
   (runOps_forward_only vmTwoPages
      [MemOp.write 0 [7], MemOp.write 70000 [1], MemOp.alloc 65792,
       MemOp.read 0 4, MemOp.dump 0 4]).2 0 (by decide)⟩

/-- C9: when `allocate` fails with out-of-memory, the failure is not
atomic: every page from the old cursor up to `NUM_PAGES - 1` has been
flagged allocated and the cursor has been pushed to `NUM_PAGES`, so the
address space is observably mutated by the failing call.  (The cursor
bound `hcur` holds in every reachable state.) -/
theorem allocate_oom_mutates (vm : VirtualMemory) (size : Nat)
    (hcur : vm.next_free_page ≤ NUM_PAGES)
    (h : (vm.allocate size).2 = Except.error Err.outOfMemory) :
    (vm.allocate size).1.next_free_page = NUM_PAGES ∧
    ∀ p, vm.next_free_page ≤ p → p < NUM_PAGES →
      (vm.allocate size).1.page_table p = true := by
  unfold VirtualMemory.allocate at h ⊢
  rcases hl : allocLoop vm.page_table vm.next_free_page (pagesNeeded size)
    with ⟨⟨pt', nfp'⟩, r⟩
  simp only [hl] at h ⊢
  cases r with
  | ok u => exact absurd h (by simp)
  | error e =>
    obtain ⟨-, h2, h3⟩ := allocLoop_error _ _ _ _ _ _ hl hcur
    exact ⟨h2, h3⟩

set_option maxRecDepth 20000 in
/-- Witness for C9: asking for 257 pages on a fresh address space fails,
and afterwards the cursor sits at `NUM_PAGES` and (for instance) the last
page is flagged allocated. -/
theorem allocate_oom_mutates_witness :
    (vmInit.allocate 65792).1.next_free_page = NUM_PAGES ∧
    (vmInit.allocate 65792).1.page_table 255 = true :=
  ⟨(allocate_oom_mutates vmInit 65792 (by decide) rfl).1,
   (allocate_oom_mutates vmInit 65792 (by decide) rfl).2 255 (by decide)
     (by decide)⟩

set_option maxRecDepth 4000 in
/-- C10: `allocate(0)` always succeeds — even with zero free pages left —
flags no page, leaves the cursor unchanged (the post-state is the input
state) and returns `next_free_page * PAGE_SIZE`; consequently two
consecutive `allocate(0)` calls return the same address. -/
theorem allocate_zero (vm : VirtualMemory) :
    vm.allocate 0 = (vm, Except.ok (vm.next_free_page * PAGE_SIZE)) ∧
    ((vm.allocate 0).1.allocate 0).2 = (vm.allocate 0).2 :=
  ⟨rfl, rfl⟩

lemma allocSeq_spec (sizes : List Nat) : ∀ (vm vm' : VirtualMemory) (addrs : List Nat),
    (∀ s ∈ sizes, 1 ≤ s ∧ s + PAGE_SIZE - 1 < U64) →
    allocSeq vm sizes = some (vm', addrs) →
    List.Pairwise (· < ·) addrs ∧
    (∀ x ∈ addrs, x % PAGE_SIZE = 0) ∧
    (∀ x ∈ addrs, vm.next_free_page * PAGE_SIZE ≤ x) ∧
    vm'.next_free_page = vm.next_free_page +
      (sizes.map fun s => (s + PAGE_SIZE - 1) / PAGE_SIZE).sum := by
  induction sizes with
  | nil =>
    intro vm vm' addrs _ h
    simp only [allocSeq, Option.some.injEq, Prod.mk.injEq] at h
    obtain ⟨rfl, rfl⟩ := h
    simp
  | cons s rest ih =>
    intro vm vm' addrs hsz h
    simp only [allocSeq] at h
    rcases ha : vm.allocate s with ⟨vm1, r⟩
    rw [ha] at h
    cases r with
    | error e => simp at h
    | ok a =>
      dsimp only at h
      rcases hr : allocSeq vm1 rest with - | ⟨vm2, as⟩
      · rw [hr] at h; simp at h
      · rw [hr] at h
        simp only [Option.some.injEq, Prod.mk.injEq] at h
        obtain ⟨rfl, rfl⟩ := h
        have hs := hsz s (by simp)
        obtain ⟨hA, hB, -, -, -⟩ := allocate_ok ha
        obtain ⟨ih1, ih2, ih3, ih4⟩ := ih vm1 vm2 as
          (fun x hx => hsz x (by simp [hx])) hr
        have hpn : 1 ≤ pagesNeeded s := pagesNeeded_pos hs.1 hs.2
        have hlt : ∀ x ∈ as, a < x := by
          intro x hx
          have h3 := ih3 x hx
          have hmul : (vm.next_free_page + 1) * PAGE_SIZE ≤
              vm1.next_free_page * PAGE_SIZE :=
            Nat.mul_le_mul_right _ (by omega)
          have hps : 0 < PAGE_SIZE := by unfold PAGE_SIZE; omega
          have hstep : vm.next_free_page * PAGE_SIZE <
              (vm.next_free_page + 1) * PAGE_SIZE := by
            rw [Nat.succ_mul]; omega
          rw [hA]
          exact lt_of_lt_of_le hstep (le_trans hmul h3)
        refine ⟨List.pairwise_cons.mpr ⟨hlt, ih1⟩, ?_, ?_, ?_⟩
        · intro x hx
          rcases List.mem_cons.mp hx with rfl | hx'
          · rw [hA]; exact Nat.mul_mod_left _ _
          · exact ih2 x hx'
        · intro x hx
          rcases List.mem_cons.mp hx with rfl | hx'
          · rw [hA]
          · exact le_trans (Nat.mul_le_mul_right _ (by omega)) (ih3 x hx')
        · rw [ih4, hB, pagesNeeded_eq hs.2]
          simp [List.map_cons, List.sum_cons]
          omega

/-- C3 (amended): for every sequence of successful `allocate(si)` calls
with each `si ≥ 1` (and small enough that the `size_t` page-count
computation `si + PAGE_SIZE - 1` does not wrap), the returned addresses
are strictly increasing and page-aligned, and the advance of the
free-page cursor equals the sum of `ceil(si / PAGE_SIZE)`.  The original
claim, quantifying over arbitrary sizes, fails for `si = 0` (see the
counterexample): `allocate(0)` succeeds without advancing, so addresses
repeat. -/
theorem allocSeq_monotone (sizes : List Nat) (vm vm' : VirtualMemory)
    (addrs : List Nat)
    (hsz : ∀ s ∈ sizes, 1 ≤ s ∧ s + PAGE_SIZE - 1 < U64)
    (h : allocSeq vm sizes = some (vm', addrs)) :
    List.Pairwise (· < ·) addrs ∧
    (∀ x ∈ addrs, x % PAGE_SIZE = 0) ∧
    vm'.next_free_page = vm.next_free_page +
      (sizes.map fun s => (s + PAGE_SIZE - 1) / PAGE_SIZE).sum := by
  obtain ⟨h1, h2, -, h4⟩ := allocSeq_spec sizes vm vm' addrs hsz h
  exact ⟨h1, h2, h4⟩

/-- Counterexample to C3 as stated: the sequence `allocate(0); allocate(0)`
succeeds and returns the addresses `[0, 0]`, which are not strictly
increasing. -/
theorem allocSeq_zero_not_increasing :
    (allocSeq vmInit [0, 0]).map (fun p => p.2) = some [0, 0] ∧
    ¬ List.Pairwise (· < ·) ([0, 0] : List Nat) :=
  ⟨rfl, by simp⟩

/-- Witness for C3: allocating 1 byte then 300 bytes on a fresh address
space returns the strictly increasing page-aligned addresses 0 and 256 and
consumes 1 + 2 pages. -/
theorem allocSeq_monotone_witness :
    List.Pairwise (· < ·) ([0, 256] : List Nat) ∧
    ((allocSeq vmInit [1, 300]).getD (vmInit, [])).1.next_free_page = 3 :=
  ⟨(allocSeq_monotone [1, 300] vmInit
      ((allocSeq vmInit [1, 300]).getD (vmInit, [])).1 [0, 256]
      (by decide) rfl).1,
   ((allocSeq_monotone [1, 300] vmInit
      ((allocSeq vmInit [1, 300]).getD (vmInit, [])).1 [0, 256]
      (by decide) rfl).2.2).trans (by decide)⟩

/-! ## Helper lemmas: byte-level write and read -/

lemma page_lt_iff (x : Nat) : x / PAGE_SIZE < NUM_PAGES ↔ x < MEMORY_SIZE := by
  simp only [MEMORY_SIZE, PAGE_SIZE, NUM_PAGES]
  omega

lemma addmod_ne (a k : Nat) (h1 : 0 < k) (h2 : k < U64) :
    (a + k) % U64 ≠ a % U64 := by
  intro h
  have h' : a + k ≡ a + 0 [MOD U64] := by simpa [Nat.ModEq] using h
  have hk : k ≡ 0 [MOD U64] := Nat.ModEq.add_left_cancel' a h'
  have hk' : k % U64 = 0 := by simpa [Nat.ModEq] using hk
  rw [Nat.mod_eq_of_lt h2] at hk'
  omega

lemma write_ok_iff (d : List Nat) : ∀ (vm : VirtualMemory) (a : Nat),
    (∀ i, i < d.length → ((a + i) % U64) / PAGE_SIZE < NUM_PAGES) →
    ((vm.write a d).2 = Except.ok () ↔
      ∀ i, i < d.length → vm.page_table (((a + i) % U64) / PAGE_SIZE) = true) := by
  induction d with
  | nil =>
    intro vm a _
    simp [VirtualMemory.write]
  | cons b rest ih =>
    intro vm a hb
    have h0 : (a % U64) / PAGE_SIZE < NUM_PAGES := by
      have := hb 0 (by simp); rwa [Nat.add_zero] at this
    unfold VirtualMemory.write
    rw [if_pos h0]
    by_cases hpt : vm.page_table ((a % U64) / PAGE_SIZE) = true
    · rw [if_pos hpt]
      have hb' : ∀ i, i < rest.length → ((a + 1 + i) % U64) / PAGE_SIZE < NUM_PAGES := by
        intro i hi
        have e : a + 1 + i = a + (i + 1) := by omega
        rw [e]
        exact hb (i + 1) (by simpa using Nat.succ_lt_succ hi)
      rw [ih _ (a + 1) hb']
      constructor
      · intro h i hi
        cases i with
        | zero => rw [Nat.add_zero]; exact hpt
        | succ i =>
          have e : a + (i + 1) = a + 1 + i := by omega
          rw [e]
          exact h i (by simpa using hi)
      · intro h i hi
        have e : a + 1 + i = a + (i + 1) := by omega
        rw [e]
        exact h (i + 1) (by simpa using Nat.succ_lt_succ hi)
    · rw [if_neg hpt]
      constructor
      · intro h; exact absurd h (by simp)
      · intro h
        have := h 0 (by simp)
        rw [Nat.add_zero] at this
        exact absurd this hpt

lemma write_result_cases (d : List Nat) : ∀ (vm : VirtualMemory) (a : Nat),
    (∀ i, i < d.length → ((a + i) % U64) / PAGE_SIZE < NUM_PAGES) →
    (vm.write a d).2 = Except.ok () ∨
    (vm.write a d).2 = Except.error Err.segFaultWrite := by
  induction d with
  | nil => intro vm a _; exact Or.inl rfl
  | cons b rest ih =>
    intro vm a hb
    have h0 : (a % U64) / PAGE_SIZE < NUM_PAGES := by
      have := hb 0 (by simp); rwa [Nat.add_zero] at this
    unfold VirtualMemory.write
    rw [if_pos h0]
    by_cases hpt : vm.page_table ((a % U64) / PAGE_SIZE) = true
    · rw [if_pos hpt]
      refine ih _ (a + 1) ?_
      intro i hi
      have e : a + 1 + i = a + (i + 1) := by omega
      rw [e]
      exact hb (i + 1) (by simpa using Nat.succ_lt_succ hi)
    · rw [if_neg hpt]
      exact Or.inr rfl

lemma write_error_iff (d : List Nat) (vm : VirtualMemory) (a : Nat)
    (hb : ∀ i, i < d.length → ((a + i) % U64) / PAGE_SIZE < NUM_PAGES) :
    ((vm.write a d).2 = Except.error Err.segFaultWrite ↔
      ∃ i, i < d.length ∧ vm.page_table (((a + i) % U64) / PAGE_SIZE) = false) := by
  rcases write_result_cases d vm a hb with hok | herr
  · constructor
    · intro h
      rw [hok] at h
      exact absurd h (by simp)
    · rintro ⟨i, hi, hfalse⟩
      have := (write_ok_iff d vm a hb).mp hok i hi
      rw [this] at hfalse
      exact absurd hfalse (by simp)
  · constructor
    · intro _
      by_contra hno
      push_neg at hno
      have hall : ∀ i, i < d.length →
          vm.page_table (((a + i) % U64) / PAGE_SIZE) = true := by
        intro i hi
        rcases hv : vm.page_table (((a + i) % U64) / PAGE_SIZE) with - | -
        · exact absurd hv (hno i hi)
        · rfl
      have := (write_ok_iff d vm a hb).mpr hall
      rw [this] at herr
      exact absurd herr (by simp)
    · intro _
      exact herr

lemma write_mem_frame (d : List Nat) : ∀ (vm : VirtualMemory) (a j : Nat),
    (∀ i, i < d.length → (a + i) % U64 ≠ j) →
    ((vm.write a d).1).memory j = vm.memory j := by
  induction d with
  | nil => intro vm a j _; rfl
  | cons b rest ih =>
    intro vm a j hj
    unfold VirtualMemory.write
    by_cases h1 : (a % U64) / PAGE_SIZE < NUM_PAGES
    · rw [if_pos h1]
      by_cases h2 : vm.page_table ((a % U64) / PAGE_SIZE) = true
      · rw [if_pos h2]
        have hrec := ih
          { vm with memory := fun j' => if j' = a % U64 then b else vm.memory j' }
          (a + 1) j (by
          intro i hi
          have e : a + 1 + i = a + (i + 1) := by omega
          rw [e]
          exact hj (i + 1) (by simpa using Nat.succ_lt_succ hi))
        rw [hrec]
        have hj0 : a % U64 ≠ j := by
          have := hj 0 (by simp); rwa [Nat.add_zero] at this
        exact if_neg (fun hh => hj0 hh.symm)
      · rw [if_neg h2]
    · rw [if_neg h1]

lemma write_ok_implies (d : List Nat) : ∀ (vm : VirtualMemory) (a : Nat),
    (vm.write a d).2 = Except.ok () →
    ∀ i, i < d.length → ((a + i) % U64) / PAGE_SIZE < NUM_PAGES ∧
      vm.page_table (((a + i) % U64) / PAGE_SIZE) = true := by
  induction d with
  | nil => intro vm a _ i hi; exact absurd hi (by simp)
  | cons b rest ih =>
    intro vm a hok i hi
    unfold VirtualMemory.write at hok
    by_cases h1 : (a % U64) / PAGE_SIZE < NUM_PAGES
    · rw [if_pos h1] at hok
      by_cases h2 : vm.page_table ((a % U64) / PAGE_SIZE) = true
      · rw [if_pos h2] at hok
        cases i with
        | zero => rw [Nat.add_zero]; exact ⟨h1, h2⟩
        | succ i =>
          have e : a + (i + 1) = a + 1 + i := by omega
          rw [e]
          exact ih _ (a + 1) hok i (by simpa using hi)
      · rw [if_neg h2] at hok
        exact absurd hok (by simp)
    · rw [if_neg h1] at hok
      exact absurd hok (by simp)

lemma write_ok_memory (d : List Nat) : ∀ (vm : VirtualMemory) (a : Nat),
    d.length < U64 →
    (vm.write a d).2 = Except.ok () →
    ∀ i (hi : i < d.length),
      ((vm.write a d).1).memory ((a + i) % U64) = d.get ⟨i, hi⟩ := by
  induction d with
  | nil => intro vm a _ _ i hi; exact absurd hi (by simp)
  | cons b rest ih =>
    intro vm a hlen hok i hi
    unfold VirtualMemory.write at hok ⊢
    by_cases h1 : (a % U64) / PAGE_SIZE < NUM_PAGES
    · rw [if_pos h1] at hok ⊢
      by_cases h2 : vm.page_table ((a % U64) / PAGE_SIZE) = true
      · rw [if_pos h2] at hok ⊢
        have hno : ∀ i2, i2 < rest.length → (a + 1 + i2) % U64 ≠ a % U64 := by
          intro i2 hi2
          have e : a + 1 + i2 = a + (1 + i2) := by omega
          rw [e]
          exact addmod_ne a (1 + i2) (by omega) (by
            simp only [List.length_cons] at hlen
            omega)
        cases i with
        | zero =>
          exact (write_mem_frame rest
            { vm with memory := fun j => if j = a % U64 then b else vm.memory j }
            (a + 1) (a % U64) hno).trans (if_pos rfl)
        | succ i =>
          have e : a + (i + 1) = a + 1 + i := by omega
          rw [e]
          exact ih _ (a + 1) (by simp only [List.length_cons] at hlen; omega)
            hok i (by simpa using hi)
      · rw [if_neg h2] at hok
        exact absurd hok (by simp)
    · rw [if_neg h1] at hok
      exact absurd hok (by simp)

lemma write_fault_at (d : List Nat) : ∀ (vm : VirtualMemory) (a k : Nat)
    (hk : k < d.length),
    d.length < U64 →
    (∀ i, i < k → ((a + i) % U64) / PAGE_SIZE < NUM_PAGES) →
    ((a + k) % U64) / PAGE_SIZE < NUM_PAGES →
    vm.page_table (((a + k) % U64) / PAGE_SIZE) = false →
    (∀ i, i < k → vm.page_table (((a + i) % U64) / PAGE_SIZE) = true) →
    (vm.write a d).2 = Except.error Err.segFaultWrite ∧
    ∀ i (hik : i < k),
      ((vm.write a d).1).memory ((a + i) % U64) = d.get ⟨i, Nat.lt_trans hik hk⟩ := by
  induction d with
  | nil => intro vm a k hk; exact absurd hk (by simp)
  | cons b rest ih =>
    intro vm a k hk hlen hbnd hbk hfault hpre
    unfold VirtualMemory.write
    cases k with
    | zero =>
      rw [Nat.add_zero] at hbk hfault
      rw [if_pos hbk, if_neg (by simp [hfault])]
      exact ⟨rfl, fun i hik => absurd hik (by omega)⟩
    | succ k =>
      have h0b : (a % U64) / PAGE_SIZE < NUM_PAGES := by
        have := hbnd 0 (by omega); rwa [Nat.add_zero] at this
      have h0t : vm.page_table ((a % U64) / PAGE_SIZE) = true := by
        have := hpre 0 (by omega); rwa [Nat.add_zero] at this
      rw [if_pos h0b, if_pos h0t]
      have hrec := ih
        { vm with memory := fun j => if j = a % U64 then b else vm.memory j }
        (a + 1) k (by simpa using hk)
        (by simp only [List.length_cons] at hlen; omega)
        (by
          intro i hi
          have e : a + 1 + i = a + (i + 1) := by omega
          rw [e]
          exact hbnd (i + 1) (by omega))
        (by
          have e : a + 1 + k = a + (k + 1) := by omega
          rw [e]
          exact hbk)
        (by
          have e : a + 1 + k = a + (k + 1) := by omega
          rw [e]
          exact hfault)
        (by
          intro i hi
          have e : a + 1 + i = a + (i + 1) := by omega
          rw [e]
          exact hpre (i + 1) (by omega))
      refine ⟨hrec.1, ?_⟩
      have hno : ∀ i2, i2 < rest.length → (a + 1 + i2) % U64 ≠ a % U64 := by
        intro i2 hi2
        have e : a + 1 + i2 = a + (1 + i2) := by omega
        rw [e]
        exact addmod_ne a (1 + i2) (by omega) (by
          simp only [List.length_cons] at hlen
          omega)
      intro i hik
      cases i with
      | zero =>
        exact (write_mem_frame rest
          { vm with memory := fun j => if j = a % U64 then b else vm.memory j }
          (a + 1) (a % U64) hno).trans (if_pos rfl)
      | succ i =>
        have e : a + (i + 1) = a + 1 + i := by omega
        rw [e]
        exact hrec.2 i (by omega)

lemma read_ok (n : Nat) : ∀ (vm : VirtualMemory) (a : Nat),
    (∀ i, i < n → ((a + i) % U64) / PAGE_SIZE < NUM_PAGES) →
    (∀ i, i < n → vm.page_table (((a + i) % U64) / PAGE_SIZE) = true) →
    vm.read a n = Except.ok (vm.printMemory a n) := by
  induction n with
  | zero => intro vm a _ _; rfl
  | succ n ih =>
    intro vm a hb hall
    have h0b : (a % U64) / PAGE_SIZE < NUM_PAGES := by
      have := hb 0 (by omega); rwa [Nat.add_zero] at this
    have h0t : vm.page_table ((a % U64) / PAGE_SIZE) = true := by
      have := hall 0 (by omega); rwa [Nat.add_zero] at this
    unfold VirtualMemory.read
    rw [if_pos h0b, if_pos h0t]
    rw [ih vm (a + 1)
      (by
        intro i hi
        have e : a + 1 + i = a + (i + 1) := by omega
        rw [e]
        exact hb (i + 1) (by omega))
      (by
        intro i hi
        have e : a + 1 + i = a + (i + 1) := by omega
        rw [e]
        exact hall (i + 1) (by omega))]
    rfl

lemma read_fault_at (n : Nat) : ∀ (vm : VirtualMemory) (a k : Nat), k < n →
    (∀ i, i < k → ((a + i) % U64) / PAGE_SIZE < NUM_PAGES) →
    ((a + k) % U64) / PAGE_SIZE < NUM_PAGES →
    vm.page_table (((a + k) % U64) / PAGE_SIZE) = false →
    (∀ i, i < k → vm.page_table (((a + i) % U64) / PAGE_SIZE) = true) →
    vm.read a n = Except.error Err.segFaultRead := by
  induction n with
  | zero => intro vm a k hk; exact absurd hk (by omega)
  | succ n ih =>
    intro vm a k hk hbnd hbk hfault hpre
    unfold VirtualMemory.read
    cases k with
    | zero =>
      rw [Nat.add_zero] at hbk hfault
      rw [if_pos hbk, if_neg (by simp [hfault])]
    | succ k =>
      have h0b : (a % U64) / PAGE_SIZE < NUM_PAGES := by
        have := hbnd 0 (by omega); rwa [Nat.add_zero] at this
      have h0t : vm.page_table ((a % U64) / PAGE_SIZE) = true := by
        have := hpre 0 (by omega); rwa [Nat.add_zero] at this
      rw [if_pos h0b, if_pos h0t]
      rw [ih vm (a + 1) k (by omega)
        (by
          intro i hi
          have e : a + 1 + i = a + (i + 1) := by omega
          rw [e]
          exact hbnd (i + 1) (by omega))
        (by
          have e : a + 1 + k = a + (k + 1) := by omega
          rw [e]
          exact hbk)
        (by
          have e : a + 1 + k = a + (k + 1) := by omega
          rw [e]
          exact hfault)
        (by
          intro i hi
          have e : a + 1 + i = a + (i + 1) := by omega
          rw [e]
          exact hpre (i + 1) (by omega))]

lemma read_congr_mod (n : Nat) : ∀ (vm : VirtualMemory) (a b : Nat),
    a % U64 = b % U64 → vm.read a n = vm.read b n := by
  induction n with
  | zero => intro vm a b _; rfl
  | succ n ih =>
    intro vm a b h
    unfold VirtualMemory.read
    rw [h, ih vm (a + 1) (b + 1) (Nat.ModEq.add_right 1 h)]

lemma printMemory_length (n : Nat) : ∀ (vm : VirtualMemory) (a : Nat),
    (vm.printMemory a n).length = n := by
  induction n with
  | zero => intro vm a; rfl
  | succ n ih =>
    intro vm a
    unfold VirtualMemory.printMemory
    simp [ih]

lemma printMemory_get (n : Nat) : ∀ (vm : VirtualMemory) (a i : Nat)
    (h' : i < (vm.printMemory a n).length),
    (vm.printMemory a n).get ⟨i, h'⟩ = vm.memory ((a + i) % U64) := by
  induction n with
  | zero =>
    intro vm a i h'
    rw [printMemory_length] at h'
    exact absurd h' (by omega)
  | succ n ih =>
    intro vm a i h'
    cases i with
    | zero => exact rfl
    | succ i =>
      have e : a + (i + 1) = a + 1 + i := by omega
      rw [e]
      exact ih vm (a + 1) i (by
        rw [printMemory_length]
        rw [printMemory_length] at h'
        omega)

lemma write_read_roundtrip (d : List Nat) (vm : VirtualMemory) (a : Nat)
    (hlen : d.length < U64)
    (hok : (vm.write a d).2 = Except.ok ()) :
    ((vm.write a d).1).read a d.length = Except.ok d := by
  have hb := write_ok_implies d vm a hok
  have hpt := (write_state_frame d vm a).1
  rw [read_ok d.length (vm.write a d).1 a (fun i hi => (hb i hi).1)
      (fun i hi => by rw [hpt]; exact (hb i hi).2)]
  congr 1
  refine List.ext_get (by rw [printMemory_length]) ?_
  intro i h1 h2
  rw [printMemory_get]
  exact write_ok_memory d vm a hlen hok i (by
    rwa [printMemory_length] at h1)

/-! ## Helper lemmas: association-list maps -/

lemma mapLookup_insert_self {β : Type} (m : List (String × β)) (k : String) (v : β) :
    mapLookup (mapInsert m k v) k = some v := by
  induction m with
  | nil => simp [mapInsert, mapLookup]
  | cons p rest ih =>
    rcases p with ⟨k', v'⟩
    unfold mapInsert
    by_cases hk : k' = k
    · rw [if_pos hk]
      simp [mapLookup, hk]
    · rw [if_neg hk]
      simp only [mapLookup, if_neg hk]
      exact ih

lemma mapLookup_insert_ne {β : Type} (m : List (String × β)) (k : String) (v : β)
    (n : String) (h : k ≠ n) :
    mapLookup (mapInsert m k v) n = mapLookup m n := by
  induction m with
  | nil => simp [mapInsert, mapLookup, h]
  | cons p rest ih =>
    rcases p with ⟨k', v'⟩
    unfold mapInsert
    by_cases hk : k' = k
    · rw [if_pos hk]
      simp only [mapLookup]
      rw [if_neg (by rw [hk]; exact h), if_neg (by rw [hk]; exact h)]
    · rw [if_neg hk]
      simp only [mapLookup]
      by_cases hn : k' = n
      · rw [if_pos hn, if_pos hn]
      · rw [if_neg hn, if_neg hn]
        exact ih

/-- C2 (amended): for every address `a` and byte list `data` all of whose
touched addresses `(a+i) mod 2^64` lie below `PAGE_SIZE * NUM_PAGES`,
`write` (and likewise `read`) checks each byte offset in order: if every
touched page is flagged allocated the call succeeds and stores (loads)
every byte; otherwise it raises the segmentation fault at the first
offset whose page is unallocated, with the preceding bytes already
stored.  The original claim's assertion that the page lookup is in bounds
for every address — including `a ≥ PAGE_SIZE * NUM_PAGES` — is false: there
the C++ indexes `page_table` out of bounds (see the counterexample). -/
theorem write_read_per_byte_check (vm : VirtualMemory) (a : Nat) (d : List Nat)
    (hmem : ∀ i, i < d.length → (a + i) % U64 < MEMORY_SIZE)
    (hlen : d.length < U64) :
    ((∀ i, i < d.length → vm.page_table (((a + i) % U64) / PAGE_SIZE) = true) →
      (vm.write a d).2 = Except.ok () ∧
      ∀ i (hi : i < d.length),
        ((vm.write a d).1).memory ((a + i) % U64) = d.get ⟨i, hi⟩) ∧
    (∀ k (hk : k < d.length),
      vm.page_table (((a + k) % U64) / PAGE_SIZE) = false →
      (∀ i, i < k → vm.page_table (((a + i) % U64) / PAGE_SIZE) = true) →
      (vm.write a d).2 = Except.error Err.segFaultWrite ∧
      ∀ i (hik : i < k),
        ((vm.write a d).1).memory ((a + i) % U64) = d.get ⟨i, Nat.lt_trans hik hk⟩) ∧
    ((∀ i, i < d.length → vm.page_table (((a + i) % U64) / PAGE_SIZE) = true) →
      vm.read a d.length = Except.ok (vm.printMemory a d.length)) ∧
    (∀ k, k < d.length →
      vm.page_table (((a + k) % U64) / PAGE_SIZE) = false →
      (∀ i, i < k → vm.page_table (((a + i) % U64) / PAGE_SIZE) = true) →
      vm.read a d.length = Except.error Err.segFaultRead) := by
  have hb : ∀ i, i < d.length → ((a + i) % U64) / PAGE_SIZE < NUM_PAGES :=
    fun i hi => (page_lt_iff _).mpr (hmem i hi)
  refine ⟨?_, ?_, ?_, ?_⟩
  · intro hall
    have hok := (write_ok_iff d vm a hb).mpr hall
    exact ⟨hok, write_ok_memory d vm a hlen hok⟩
  · intro k hk hfault hpre
    exact write_fault_at d vm a k hk hlen
      (fun i hi => hb i (Nat.lt_trans hi hk)) (hb k hk) hfault hpre
  · intro hall
    exact read_ok d.length vm a hb hall
  · intro k hk hfault hpre
    exact read_fault_at d.length vm a k hk
      (fun i hi => hb i (Nat.lt_trans hi hk)) (hb k hk) hfault hpre

/-- Counterexample to C2 as stated: writing one byte at address
`MEMORY_SIZE` (page index `NUM_PAGES`, one past the last page) does not
raise a segmentation fault — the page-table access is out of bounds
(undefined behaviour in the C++). -/
theorem write_beyond_memory_ub :
    (vmInit.write MEMORY_SIZE [0]).2 = Except.error Err.undefinedBehavior ∧
    ¬ (vmInit.write MEMORY_SIZE [0]).2 = Except.error Err.segFaultWrite := by
  constructor
  · rfl
  · intro h
    have h2 : Except.error (α := Unit) Err.undefinedBehavior =
        Except.error Err.segFaultWrite :=
      (rfl : (vmInit.write MEMORY_SIZE [0]).2 =
        Except.error Err.undefinedBehavior).symm.trans h
    exact absurd (Except.error.inj h2) (by simp)

/-- Witness for C2: a 3-byte write inside allocated page 0 succeeds, and a
1-byte read in the unallocated page 2 faults with the read-flavoured
segmentation fault. -/
theorem write_read_per_byte_check_witness :
    (vmTwoPages.write 10 [1, 2, 3]).2 = Except.ok () ∧
    vmTwoPages.read 600 1 = Except.error Err.segFaultRead :=
  ⟨((write_read_per_byte_check vmTwoPages 10 [1, 2, 3] (by decide) (by decide)).1
      (by decide)).1,
   (write_read_per_byte_check vmTwoPages 600 [5] (by decide) (by decide)).2.2.2
      0 (by decide) (by decide) (fun i hi => absurd hi (Nat.not_lt_zero i))⟩

/-- C4 (amended): `Library.addSymbol(name, offset)` fails with a
segmentation fault exactly when one of the 8 marker bytes at
`base_address + offset` falls in a page that is not flagged allocated
(staying within the address-space bounds).  The check is global page
allocation, not ownership: when the touched pages are allocated — even to
a different library or executable — the call succeeds (see the
counterexample refuting the original "regardless of owner" claim). -/
theorem addSymbol_fault_iff (vm : VirtualMemory) (lib : Library) (n : String)
    (off : Nat)
    (hmem : ∀ i, i < 8 → (lib.base_address + off + i) % U64 < MEMORY_SIZE) :
    ((lib.addSymbol vm n off).2.2 = Except.ok () ↔
      ∀ i, i < 8 →
        vm.page_table (((lib.base_address + off + i) % U64) / PAGE_SIZE) = true) ∧
    ((lib.addSymbol vm n off).2.2 = Except.error Err.segFaultWrite ↔
      ∃ i, i < 8 ∧
        vm.page_table (((lib.base_address + off + i) % U64) / PAGE_SIZE) = false) := by
  have hmb : markerBytes.length = 8 := rfl
  have hb : ∀ i, i < markerBytes.length →
      (((lib.base_address + off) % U64 + i) % U64) / PAGE_SIZE < NUM_PAGES := by
    intro i hi
    rw [Nat.mod_add_mod]
    exact (page_lt_iff _).mpr (hmem i (by omega))
  have h1 := write_ok_iff markerBytes vm ((lib.base_address + off) % U64) hb
  have h2 := write_error_iff markerBytes vm ((lib.base_address + off) % U64) hb
  constructor
  · constructor
    · intro hok i hi
      have := h1.mp hok i (by omega)
      rwa [Nat.mod_add_mod] at this
    · intro hall
      exact h1.mpr (by
        intro i hi
        rw [Nat.mod_add_mod]
        exact hall i (by omega))
  · constructor
    · intro herr
      obtain ⟨i, hi, hfalse⟩ := h2.mp herr
      rw [Nat.mod_add_mod] at hfalse
      exact ⟨i, by omega, hfalse⟩
    · rintro ⟨i, hi, hfalse⟩
      exact h2.mpr ⟨i, by omega, by rw [Nat.mod_add_mod]; exact hfalse⟩

/-- Counterexample to C4 as stated: library "liba" owns page 0 only, yet
`addSymbol("x", PAGE_SIZE)` — whose 8-byte marker write lands entirely in
page 1, owned by library "libb" — succeeds instead of raising the claimed
segmentation fault. -/
theorem addSymbol_cross_page_no_fault :
    libA.base_address = 0 ∧ libB.base_address = PAGE_SIZE ∧
    (libA.addSymbol vmAB "x" PAGE_SIZE).2.2 = Except.ok () :=
  ⟨rfl, rfl, rfl⟩

/-- Witness for C4: `addSymbol` at offset 0 of library "libb" (page 1,
allocated) succeeds, via the amended characterization. -/
theorem addSymbol_fault_iff_witness :
    (libB.addSymbol vmAB "y" 0).2.2 = Except.ok () :=
  (addSymbol_fault_iff vmAB libB "y" 0 (by decide)).1.mpr (by decide)

/-- C6: whenever the 8-byte marker write of `Library.addSymbol(n, off)`
succeeds, reading 8 bytes back at `base_address + off` returns the fixed
marker value (the little-endian image of `0xDEADBEEF`), and
`findSymbol(n)` returns a symbol whose address is `base_address + off`
(in `uint64_t` arithmetic). -/
theorem addSymbol_marker (vm : VirtualMemory) (lib : Library) (n : String)
    (off : Nat)
    (h : (lib.addSymbol vm n off).2.2 = Except.ok ()) :
    ((lib.addSymbol vm n off).2.1).read (lib.base_address + off) 8 =
      Except.ok markerBytes ∧
    ((lib.addSymbol vm n off).1).findSymbol n =
      some ⟨n, (lib.base_address + off) % U64⟩ := by
  constructor
  · have hr := write_read_roundtrip markerBytes vm
      ((lib.base_address + off) % U64) (by decide) h
    have hc := read_congr_mod 8 ((lib.addSymbol vm n off).2.1)
      (lib.base_address + off) ((lib.base_address + off) % U64)
      (by rw [Nat.mod_mod_of_dvd _ dvd_rfl])
    rw [hc]
    exact hr
  · exact mapLookup_insert_self lib.symbols n _

/-- Witness for C6: on a state with page 0 allocated, adding symbol "s" at
offset 16 of a page-0 library succeeds; reading back yields the marker and
`findSymbol` returns address 16. -/
theorem addSymbol_marker_witness :
    ((lib6.addSymbol vmTwoPages "s" 16).2.1).read (lib6.base_address + 16) 8 =
      Except.ok markerBytes ∧
    ((lib6.addSymbol vmTwoPages "s" 16).1).findSymbol "s" =
      some ⟨"s", (lib6.base_address + 16) % U64⟩ :=
  addSymbol_marker vmTwoPages lib6 "s" 16 rfl

/-- C8 (amended): when the registry already holds an entry for name `n`,
`loadLibrary` with a library named `n` keeps the key set but replaces the
stored library with its argument (last load wins) — it is not a no-op on
the mapped value.  The dependency-load phase of `linkExecutable`, which
calls `loadLibrary` only after a failed lookup, does leave the registry
unchanged for already-loaded names. -/
theorem loadLibrary_replaces (l : DynamicLinker) (lib old : Library)
    (h : mapLookup l.loadedLibraries lib.name = some old) :
    (∀ n, (mapLookup (l.loadLibrary lib).loadedLibraries n = none ↔
      mapLookup l.loadedLibraries n = none)) ∧
    mapLookup (l.loadLibrary lib).loadedLibraries lib.name = some lib ∧
    (∀ n, n ≠ lib.name →
      mapLookup (l.loadLibrary lib).loadedLibraries n =
        mapLookup l.loadedLibraries n) ∧
    (∀ ds : List Library, (∀ d ∈ ds, mapLookup l.loadedLibraries d.name ≠ none) →
      loadDeps l ds = l) := by
  refine ⟨?_, mapLookup_insert_self _ _ _, ?_, ?_⟩
  · intro n
    show mapLookup (mapInsert l.loadedLibraries lib.name lib) n = none ↔
      mapLookup l.loadedLibraries n = none
    by_cases hn : n = lib.name
    · subst hn
      rw [mapLookup_insert_self, h]
      simp
    · rw [mapLookup_insert_ne _ _ _ _ (fun hh => hn hh.symm)]
  · intro n hn
    exact mapLookup_insert_ne _ _ _ _ (fun hh => hn hh.symm)
  · intro ds
    induction ds with
    | nil => intro _; rfl
    | cons d rest ih =>
      intro hall
      have hd := hall d (by simp)
      unfold loadDeps
      rcases hld : mapLookup l.loadedLibraries d.name with - | ld
      · exact absurd hld hd
      · exact ih (fun x hx => hall x (by simp [hx]))

/-- Counterexample to C8 as stated: with "liba" already registered
(mapping to the base-0 library), `loadLibrary` of a *different* library
also named "liba" is not a no-op — the registry afterwards maps "liba" to
the new library. -/
theorem loadLibrary_not_noop :
    ((DynamicLinker.mk [("liba", libAplain)]).loadLibrary libA2).loadedLibraries =
      [("liba", libA2)] ∧
    libA2 ≠ libAplain ∧
    ((DynamicLinker.mk [("liba", libAplain)]).loadLibrary libA2).loadedLibraries ≠
      [("liba", libAplain)] := by
  refine ⟨rfl, by decide, ?_⟩
  intro h
  have h2 : ([("liba", libA2)] : List (String × Library)) = [("liba", libAplain)] :=
    (rfl : ((DynamicLinker.mk [("liba", libAplain)]).loadLibrary
      libA2).loadedLibraries = [("liba", libA2)]).symm.trans h
  exact absurd h2 (by decide)

/-- Witness for C8: after loading the second "liba", the registry maps
"liba" to it and still has no entry for "other". -/
theorem loadLibrary_replaces_witness :
    mapLookup ((DynamicLinker.mk [("liba", libAplain)]).loadLibrary
      libA2).loadedLibraries "liba" = some libA2 ∧
    (mapLookup ((DynamicLinker.mk [("liba", libAplain)]).loadLibrary
      libA2).loadedLibraries "other" = none ↔
      mapLookup (DynamicLinker.mk [("liba", libAplain)]).loadedLibraries
        "other" = none) :=
  ⟨(loadLibrary_replaces (DynamicLinker.mk [("liba", libAplain)]) libA2
      libAplain rfl).2.1,
   (loadLibrary_replaces (DynamicLinker.mk [("liba", libAplain)]) libA2
      libAplain rfl).1 "other"⟩

/-! ## Helper lemmas: the relocation loop -/

lemma applyRelocs_append (libs : List (String × Library)) (base : Nat)
    (ps : List Relocation) : ∀ (qs : List Relocation)
    (sa : List (String × Nat)) (vm : VirtualMemory)
    (sa' : List (String × Nat)) (vm' : VirtualMemory),
    applyRelocs libs base ps sa vm = (sa', vm', Except.ok ()) →
    applyRelocs libs base (ps ++ qs) sa vm = applyRelocs libs base qs sa' vm' := by
  induction ps with
  | nil =>
    intro qs sa vm sa' vm' h
    simp only [applyRelocs, Prod.mk.injEq] at h
    obtain ⟨rfl, rfl, -⟩ := h
    rfl
  | cons r rest ih =>
    intro qs sa vm sa' vm' h
    rw [List.cons_append]
    simp only [applyRelocs] at h ⊢
    rcases hres : resolveSymbol libs r.symbolName with - | sym
    · simp only [hres] at h
      exact absurd h (by simp)
    · simp only [hres] at h ⊢
      rcases hw : vm.write ((base + r.offset) % U64) (toBytes64 sym.address)
        with ⟨vmw, rw⟩
      simp only [hw] at h ⊢
      cases rw with
      | error e => exact absurd h (by simp)
      | ok u => exact ih qs _ vmw sa' vm' h

lemma applyRelocs_ok_lookup (libs : List (String × Library)) (base : Nat)
    (ps : List Relocation) : ∀ (sa : List (String × Nat)) (vm : VirtualMemory)
    (sa' : List (String × Nat)) (vm' : VirtualMemory),
    applyRelocs libs base ps sa vm = (sa', vm', Except.ok ()) →
    ∀ (n : String) (a : Nat), mapLookup sa' n = some a ↔
      ((∃ r ∈ ps, r.symbolName = n) ∧
        ∃ s, resolveSymbol libs n = some s ∧ s.address = a) ∨
      ((∀ r ∈ ps, r.symbolName ≠ n) ∧ mapLookup sa n = some a) := by
  induction ps with
  | nil =>
    intro sa vm sa' vm' h n a
    simp only [applyRelocs, Prod.mk.injEq] at h
    obtain ⟨rfl, rfl, -⟩ := h
    simp
  | cons r rest ih =>
    intro sa vm sa' vm' h n a
    simp only [applyRelocs] at h
    rcases hres : resolveSymbol libs r.symbolName with - | sym
    · simp only [hres] at h
      exact absurd h (by simp)
    · simp only [hres] at h
      rcases hw : vm.write ((base + r.offset) % U64) (toBytes64 sym.address)
        with ⟨vmw, rw⟩
      simp only [hw] at h
      cases rw with
      | error e => exact absurd h (by simp)
      | ok u =>
        have IH := ih (mapInsert sa r.symbolName sym.address) vmw sa' vm' h n a
        by_cases hn : r.symbolName = n
        · subst hn
          rw [IH]
          constructor
          · rintro (⟨-, hres'⟩ | ⟨-, hlook⟩)
            · exact Or.inl ⟨⟨r, by simp, rfl⟩, hres'⟩
            · rw [mapLookup_insert_self] at hlook
              exact Or.inl ⟨⟨r, by simp, rfl⟩, sym, hres,
                Option.some.inj hlook⟩
          · rintro (⟨-, s, hrs, hsa⟩ | ⟨hnot, -⟩)
            · rw [hres] at hrs
              have hss := Option.some.inj hrs
              subst hss
              by_cases hrest : ∃ r' ∈ rest, r'.symbolName = r.symbolName
              · exact Or.inl ⟨hrest, sym, hres, hsa⟩
              · push_neg at hrest
                refine Or.inr ⟨hrest, ?_⟩
                rw [mapLookup_insert_self]
                exact congrArg some hsa
            · exact absurd rfl (hnot r (by simp))
        · rw [IH, mapLookup_insert_ne _ _ _ _ hn]
          constructor
          · rintro (⟨⟨r', hr', hr'n⟩, hres'⟩ | ⟨hnot, hlook⟩)
            · exact Or.inl ⟨⟨r', by simp [hr'], hr'n⟩, hres'⟩
            · refine Or.inr ⟨?_, hlook⟩
              intro r' hr'
              rcases List.mem_cons.mp hr' with rfl | hr''
              · exact hn
              · exact hnot r' hr''
          · rintro (⟨⟨r', hr', hr'n⟩, hres'⟩ | ⟨hnot, hlook⟩)
            · rcases List.mem_cons.mp hr' with rfl | hr''
              · exact absurd hr'n hn
              · exact Or.inl ⟨⟨r', hr'', hr'n⟩, hres'⟩
            · exact Or.inr ⟨fun r' hr'' => hnot r' (by simp [hr'']), hlook⟩

lemma applyRelocs_fail_at (libs : List (String × Library)) (base : Nat)
    (rs : List Relocation) (k : Nat) (hk : k < rs.length)
    (sa : List (String × Nat)) (vm : VirtualMemory)
    (sa' : List (String × Nat)) (vm' : VirtualMemory)
    (hpre : applyRelocs libs base (rs.take k) sa vm = (sa', vm', Except.ok ()))
    (hun : resolveSymbol libs (rs.get ⟨k, hk⟩).symbolName = none) :
    applyRelocs libs base rs sa vm =
      (sa', vm', Except.error (Err.unresolvedSymbol (rs.get ⟨k, hk⟩).symbolName)) := by
  have hdrop : rs.drop k = rs.get ⟨k, hk⟩ :: rs.drop (k + 1) := by
    rw [List.drop_eq_getElem_cons hk, List.get_eq_getElem]
  conv_lhs => rw [← List.take_append_drop k rs]
  rw [applyRelocs_append libs base (rs.take k) (rs.drop k) sa vm sa' vm' hpre]
  rw [hdrop]
  simp only [applyRelocs, hun]

/-- C1: if `linkExecutable` reaches relocation index `k` (the first `k`
relocations applied successfully) and no loaded library exports the
symbol name of relocation `k`, the call fails with `UnresolvedSymbol`
carrying exactly that name, the `symbolAddresses` map and the memory are
exactly those produced by the successful prefix (no rollback), and —
starting from an empty map — `symbolAddresses` contains exactly an entry
for each relocation preceding the failing one, mapped to its resolved
address. -/
theorem linkExecutable_unresolved (l : DynamicLinker) (exe : Executable)
    (vm : VirtualMemory) (k : Nat) (hk : k < exe.relocations.length)
    (sa' : List (String × Nat)) (vm' : VirtualMemory)
    (hsa0 : exe.symbolAddresses = [])
    (hpre : applyRelocs (loadDeps l exe.dependencies).loadedLibraries
      exe.base_address (exe.relocations.take k) exe.symbolAddresses vm =
      (sa', vm', Except.ok ()))
    (hun : resolveSymbol (loadDeps l exe.dependencies).loadedLibraries
      (exe.relocations.get ⟨k, hk⟩).symbolName = none) :
    l.linkExecutable exe vm =
      (loadDeps l exe.dependencies, { exe with symbolAddresses := sa' }, vm',
        Except.error (Err.unresolvedSymbol
          (exe.relocations.get ⟨k, hk⟩).symbolName)) ∧
    ∀ (n : String) (a : Nat), mapLookup sa' n = some a ↔
      (∃ r ∈ exe.relocations.take k, r.symbolName = n) ∧
      ∃ s, resolveSymbol (loadDeps l exe.dependencies).loadedLibraries n =
        some s ∧ s.address = a := by
  have hfull := applyRelocs_fail_at
    (loadDeps l exe.dependencies).loadedLibraries exe.base_address
    exe.relocations k hk exe.symbolAddresses vm sa' vm' hpre hun
  constructor
  · simp only [DynamicLinker.linkExecutable]
    rw [hfull]
  · intro n a
    have hl := applyRelocs_ok_lookup
      (loadDeps l exe.dependencies).loadedLibraries exe.base_address
      (exe.relocations.take k) exe.symbolAddresses vm sa' vm' hpre n a
    rw [hl, hsa0]
    simp [mapLookup]

/-- Witness for C1: linking `exeApp` (relocations "f" at 0, then "g" at
8) against a registry holding only `libF` (which exports just "f") fails
with `UnresolvedSymbol "g")`, while the resolved address 16 of "f" is
already recorded. -/
theorem linkExecutable_unresolved_witness :
    (linker0.linkExecutable exeApp vmTwoPages).2.2.2 =
      Except.error (Err.unresolvedSymbol "g") ∧
    mapLookup (linker0.linkExecutable exeApp vmTwoPages).2.1.symbolAddresses
      "f" = some 16 := by
  have H := linkExecutable_unresolved linker0 exeApp vmTwoPages 1 (by decide)
    preRun.1 preRun.2.1 rfl rfl rfl
  constructor
  · have h1 := congrArg (fun t => t.2.2.2) H.1
    exact h1
  · have h3 := (H.2 "f" 16).mpr
      ⟨⟨⟨"f", 0⟩, by decide, rfl⟩, ⟨"f", 16⟩, rfl, rfl⟩
    exact (congrArg
      (fun t => mapLookup t.2.1.symbolAddresses "f") H.1).trans h3
